import Mathlib

/-!
Shallow embedding of `src/app.py` (GPT travel guide, a Streamlit app).

Strings manipulated character-by-character by the Python code are modelled
as `List Char`; Python `str.replace(c, "")` with a one-character pattern is
`List.filter (· ≠ c)`, `str.split(",")` is `splitOnChar ','`, `str.strip()`
is `pyStrip`.  Fallible Python code (functions that may raise) returns
`Except String` or `Option`.  Coordinates returned by the geocoding service
are decimal numbers (Python floats are binary fractions, hence exact
decimal fractions); they are modelled exactly as `DecNum` (an integer
mantissa with a count of decimal digits after the point).
-/

namespace App

/-- Python `str.strip` whitespace set (ASCII part, which is what the app's
strings contain). -/
def isPySpace (c : Char) : Bool :=
  c = ' ' || c = '\t' || c = '\n' || c = '\r' || c = '\x0b' || c = '\x0c'

/-- Python `text.split(sep)` for a one-character separator: splits on every
occurrence, keeping empty pieces; the result is always non-empty. -/
def splitOnChar (sep : Char) : List Char → List (List Char)
  | [] => [[]]
  | c :: cs =>
    if c = sep then
      [] :: splitOnChar sep cs
    else
      match splitOnChar sep cs with
      | [] => [[c]]
      | h :: t => (c :: h) :: t

/-- Python `str.strip()`: remove leading and trailing whitespace. -/
def pyStrip (l : List Char) : List Char :=
  ((l.dropWhile isPySpace).reverse.dropWhile isPySpace).reverse

/-- Python `text.replace(c, "")` for a one-character pattern: drop every
occurrence of `c`. -/
def pyRemove (c : Char) (l : List Char) : List Char :=
  l.filter (fun x => x ≠ c)

/-- The Itinerary Parser's syntactic cleaning, exactly as
`process_itinerary` performs it (`src/app.py` lines 148-149):
`text.replace("[", "").replace("]", "").split(",")`, then
`[t.replace("'", "").strip() for t in text]`. -/
def extract_cities (text : List Char) : List (List Char) :=
  (splitOnChar ',' (pyRemove ']' (pyRemove '[' text))).map
    (fun t => pyStrip (pyRemove '\'' t))

/-- The spec's description of the same cleaning, in the spec's order:
"Strips bracket characters and quote characters from the raw text, splits
on commas, trims whitespace per element." -/
def extract_cities_spec (text : List Char) : List (List Char) :=
  (splitOnChar ',' (pyRemove '\'' (pyRemove ']' (pyRemove '[' text)))).map pyStrip

theorem splitOnChar_ne_nil (sep : Char) (l : List Char) :
    splitOnChar sep l ≠ [] := by
  induction l with
  | nil => simp [splitOnChar]
  | cons c cs ih =>
    simp only [splitOnChar]
    split
    · simp
    · cases h : splitOnChar sep cs with
      | nil => simp
      | cons h t => simp

/-- Removing a character other than the separator commutes with splitting. -/
theorem splitOnChar_pyRemove (sep c : Char) (hne : c ≠ sep) (l : List Char) :
    splitOnChar sep (pyRemove c l) = (splitOnChar sep l).map (pyRemove c) := by
  induction l with
  | nil => simp [splitOnChar, pyRemove]
  | cons x xs ih =>
    by_cases hxc : x = c
    · have hxs : ¬x = sep := by rw [hxc]; exact hne
      have h1 : pyRemove c (x :: xs) = pyRemove c xs := by
        simp [pyRemove, List.filter_cons, hxc]
      rw [h1, ih]
      simp only [splitOnChar, if_neg hxs]
      cases h : splitOnChar sep xs with
      | nil => exact absurd h (splitOnChar_ne_nil sep xs)
      | cons hh tt =>
        simp [pyRemove, List.filter_cons, hxc]
    · have h1 : pyRemove c (x :: xs) = x :: pyRemove c xs := by
        simp [pyRemove, List.filter_cons, hxc]
      rw [h1]
      by_cases hxs : x = sep
      · simp only [splitOnChar, if_pos hxs, ih, List.map_cons]
        simp [pyRemove]
      · simp only [splitOnChar, if_neg hxs, ih]
        cases h : splitOnChar sep xs with
        | nil => exact absurd h (splitOnChar_ne_nil sep xs)
        | cons hh tt =>
          simp [pyRemove, List.filter_cons, hxc]

/-- A decimal number `m / 10 ^ e`: the exact value of a Python float
(every binary float is a decimal fraction) as produced by `json.loads`
on the geocoding response and re-serialized by `repr`. -/
structure DecNum where
  m : Int
  e : Nat
  deriving DecidableEq, Repr

/-- The rational value of a decimal number. -/
def DecNum.toRat (x : DecNum) : ℚ := (x.m : ℚ) / 10 ^ x.e

/-- A coordinate pair `[latitude, longitude]` as returned by
`get_coordinates`. -/
abbrev Coord := DecNum × DecNum

/-- A location dictionary `{'name': ..., 'coordinates': ...}` built by
`process_itinerary` (`src/app.py` line 160). -/
structure Location where
  name : List Char
  coordinates : Coord
  deriving DecidableEq

/-- The loop body of `process_itinerary` (`src/app.py` lines 153-162):
try to resolve the city; on an exception print it and continue, on
success append to both accumulators. -/
def process_step (resolver : List Char → Except (List Char) Coord)
    (acc : List Location × List Coord) (city : List Char) :
    List Location × List Coord :=
  match resolver city with
  | .error _ => acc
  | .ok coord => (acc.1 ++ [⟨city, coord⟩], acc.2 ++ [coord])

/-- `process_itinerary` (`src/app.py` lines 136-164).  The Coordinate
Resolver (`get_coordinates country ·`, which may raise) is passed as an
oracle `resolver`; an `Except.error` models a raised exception. -/
def process_itinerary (resolver : List Char → Except (List Char) Coord)
    (text : List Char) : List Location × List Coord :=
  (extract_cities text).foldl (process_step resolver) ([], [])

/-- A marker placed on the folium map by `plot_locations`: position
`[lat, lon]`, popup the city name, numbered `i + 1`. -/
structure Marker where
  position : Coord
  popup : List Char
  number : Nat
  deriving DecidableEq

/-- `plot_locations` (`src/app.py` lines 166-207).  On the empty list,
`locations[0]` raises `IndexError`, modelled as `none`; otherwise the
function draws one marker per location in input order, skipping index
`len(locations) - 1` when `locations[0] == locations[-1]`. -/
def plot_locations (locations : List Location) : Option (List Marker) :=
  match locations with
  | [] => none
  | l0 :: rest =>
    let locs := l0 :: rest
    let same_first_last := l0 = locs.getLast (by simp)
    some (locs.enum.filterMap (fun p =>
      if p.1 = locs.length - 1 ∧ same_first_last then none
      else some ⟨p.2.coordinates, p.2.name, p.1 + 1⟩))

/-- What the Itinerary Parser keeps for one extracted city: `none` when
the resolver raises, otherwise the Location dictionary. -/
def resolved (resolver : List Char → Except (List Char) Coord)
    (city : List Char) : Option Location :=
  match resolver city with
  | .error _ => none
  | .ok coord => some ⟨city, coord⟩

theorem process_itinerary_foldl (resolver : List Char → Except (List Char) Coord)
    (cities : List (List Char)) (acc : List Location × List Coord) :
    cities.foldl (process_step resolver) acc =
      (acc.1 ++ cities.filterMap (resolved resolver),
       acc.2 ++ (cities.filterMap (resolved resolver)).map Location.coordinates) := by
  induction cities generalizing acc with
  | nil => simp
  | cons c cs ih =>
    simp only [List.foldl_cons, List.filterMap_cons]
    cases h : resolver c with
    | error e => simp [process_step, resolved, h, ih]
    | ok coord => simp [process_step, resolved, h, ih]

theorem filterMap_congr_some {α β : Type} (f : α → Option β) (g : α → β) :
    ∀ l : List α, (∀ a ∈ l, f a = some (g a)) → l.filterMap f = l.map g := by
  intro l h
  induction l with
  | nil => simp
  | cons a as ih =>
    rw [List.filterMap_cons, h a (by simp), List.map_cons,
      ih (fun b hb => h b (by simp [hb]))]

theorem fst_lt_of_mem_enum {α : Type} {p : ℕ × α} {l : List α}
    (h : p ∈ l.enum) : p.1 < l.length := by
  obtain ⟨i, x⟩ := p
  have := List.mem_enumFrom (show (i, x) ∈ List.enumFrom 0 l from h)
  simpa using this.2.1

theorem map_name_filterMap_resolved
    (resolver : List Char → Except (List Char) Coord) (l : List (List Char)) :
    (l.filterMap (resolved resolver)).map Location.name
      = l.filter (fun c => (resolver c).isOk) := by
  induction l with
  | nil => rfl
  | cons c cs ih =>
    cases h : resolver c <;>
      simp [List.filterMap_cons, resolved, h, List.filter_cons, Except.isOk,
        Except.toBool, ih]

/-- C8: the Itinerary Parser's cleaning (`process_itinerary` lines
148-149) removes bracket characters and the quote character, splits on
commas and trims whitespace per element: the code (which removes quotes
per element after splitting) computes exactly the spec's description
(which removes quotes from the whole text before splitting). -/
theorem extract_cities_matches_spec (text : List Char) :
    extract_cities text = extract_cities_spec text := by
  unfold extract_cities extract_cities_spec
  rw [splitOnChar_pyRemove ',' '\'' (by decide), List.map_map]
  rfl

/-- C1: for every raw generator text and every resolver behavior,
`process_itinerary` returns exactly the ordered subsequence of extracted
cities whose resolution succeeded (raising cities are dropped and the
loop continues with the next city), and the parallel coordinate list is
the map of the `coordinates` field over the returned Locations (hence has
the same length, with the i-th pair equal to the i-th Location's
coordinates). -/
theorem process_itinerary_correct
    (resolver : List Char → Except (List Char) Coord) (text : List Char) :
    (process_itinerary resolver text).1
        = (extract_cities text).filterMap (resolved resolver)
      ∧ ((process_itinerary resolver text).1).map Location.name
        = (extract_cities text).filter (fun c => (resolver c).isOk)
      ∧ (process_itinerary resolver text).2
        = ((process_itinerary resolver text).1).map Location.coordinates := by
  unfold process_itinerary
  rw [process_itinerary_foldl]
  refine ⟨by simp, ?_, by simp⟩
  simp [map_name_filterMap_resolved]

/-- The marker built for the enumerated location `(i, location)`. -/
def mkMarker (p : ℕ × Location) : Marker :=
  ⟨p.2.coordinates, p.2.name, p.1 + 1⟩

theorem plot_locations_cons (l0 : Location) (rest : List Location) :
    plot_locations (l0 :: rest) =
      some ((l0 :: rest).enum.filterMap (fun p =>
        if p.1 = (l0 :: rest).length - 1
            ∧ l0 = (l0 :: rest).getLast (by simp) then none
        else some (mkMarker p))) := rfl

theorem plot_locations_open (l0 : Location) (rest : List Location)
    (hc : ¬l0 = (l0 :: rest).getLast (by simp)) :
    plot_locations (l0 :: rest) = some ((l0 :: rest).enum.map mkMarker) := by
  rw [plot_locations_cons, filterMap_congr_some _ mkMarker]
  intro p hp
  rw [if_neg (fun hcon => hc hcon.2)]

theorem plot_locations_closed (l0 : Location) (rest : List Location)
    (hc : l0 = (l0 :: rest).getLast (by simp)) :
    plot_locations (l0 :: rest)
      = some ((l0 :: rest).dropLast.enum.map mkMarker) := by
  have henum : (l0 :: rest).enum =
      (l0 :: rest).dropLast.enum
        ++ [((l0 :: rest).length - 1, (l0 :: rest).getLast (by simp))] := by
    conv_lhs => rw [← List.dropLast_append_getLast
      (show (l0 :: rest) ≠ [] by simp)]
    rw [List.enum_append]
    simp [List.enumFrom, List.length_dropLast]
  rw [plot_locations_cons, henum, List.filterMap_append,
    filterMap_congr_some _ mkMarker _ ?keep]
  case keep =>
    intro p hp
    have hlt : p.1 < (l0 :: rest).dropLast.length := fst_lt_of_mem_enum hp
    rw [List.length_dropLast] at hlt
    exact if_neg (fun hcon => absurd hcon.1 (by omega))
  simp [List.filterMap_cons, ← hc]

/-- C2: for a non-empty location list, `plot_locations` draws
`len - 1` markers when the first and last locations are equal by value
(name and coordinates) and `len` markers otherwise, and the i-th drawn
marker carries number `i + 1` together with the i-th location's
coordinates and name (input order). -/
theorem plot_locations_marker_count (locations : List Location)
    (h : locations ≠ []) :
    ∃ markers, plot_locations locations = some markers
      ∧ markers.length =
          (if locations.head h = locations.getLast h
           then locations.length - 1 else locations.length)
      ∧ ∀ i (hi : i < markers.length), ∃ hil : i < locations.length,
          markers.get ⟨i, hi⟩ =
            ⟨(locations.get ⟨i, hil⟩).coordinates,
             (locations.get ⟨i, hil⟩).name, i + 1⟩ := by
  cases locations with
  | nil => exact absurd rfl h
  | cons l0 rest =>
    by_cases hc : l0 = (l0 :: rest).getLast (by simp)
    · refine ⟨_, plot_locations_closed l0 rest hc, ?_, ?_⟩
      · rw [if_pos (by simpa [List.head] using hc)]
        simp [List.enum_length, List.length_dropLast]
      · intro i hi
        simp only [List.length_map, List.enum_length,
          List.length_dropLast, List.length_cons] at hi
        have hil : i < (l0 :: rest).length := by
          simp only [List.length_cons]; omega
        refine ⟨hil, ?_⟩
        have hi2 : i < (l0 :: rest).dropLast.length := by
          rw [List.length_dropLast]; simpa using hi
        simp only [List.get_eq_getElem, List.getElem_map, List.getElem_enum,
          mkMarker, List.getElem_dropLast]
    · refine ⟨_, plot_locations_open l0 rest hc, ?_, ?_⟩
      · rw [if_neg (by simpa [List.head] using hc)]
        simp [List.enum_length]
      · intro i hi
        simp only [List.length_map, List.enum_length] at hi
        refine ⟨hi, ?_⟩
        simp only [List.get_eq_getElem, List.getElem_map, List.getElem_enum,
          mkMarker]

/-- C10: `plot_locations` requires a non-empty list: on the empty list the
first step indexes `locations[0]`, the out-of-bounds branch is reached and
no map is produced; on any non-empty list the function is well-defined. -/
theorem plot_locations_nonempty_requirement :
    plot_locations [] = none
      ∧ ∀ locations : List Location, locations ≠ [] →
          (plot_locations locations).isSome := by
  refine ⟨rfl, ?_⟩
  intro locations hne
  cases locations with
  | nil => exact absurd rfl hne
  | cons l0 rest => rw [plot_locations_cons]; rfl

/-- Sample resolved location (witness data). -/
def lisbon : Location := ⟨"Lisbon".toList, (⟨387169, 4⟩, ⟨-91399, 4⟩)⟩

/-- Sample resolved location (witness data). -/
def porto : Location := ⟨"Porto".toList, (⟨411496, 4⟩, ⟨-86109, 4⟩)⟩

/-- The cache key (`src/app.py` line 251):
`code = f"{country}_{first_city}_{last_city}_{num_days}"`. -/
def cacheKey (country first_city last_city : String) (num_days : ℕ) : String :=
  country ++ "_" ++ first_city ++ "_" ++ last_city ++ "_" ++ toString num_days

/-- The cache file addressed by a key (`f"{code}.csv"`, lines 253/257/275). -/
def cacheFileName (country first_city last_city : String) (num_days : ℕ) :
    String :=
  cacheKey country first_city last_city num_days ++ ".csv"

/-- The session state owned by the Session/UI Controller:
`st.session_state.count` and `st.session_state.disabled`. -/
structure SessionState where
  count : ℕ
  disabled : Bool
  deriving DecidableEq

/-- The message shown by the submit handler when a result is displayed. -/
def clearFirstMsg : String := "**Clear first!**"

/-- The submit handler (`src/app.py` lines 233-238): returns the new
session state, the message emitted (if any), and whether a rerun (the
pass that computes and shows a new itinerary) is triggered. -/
def handle_submit (s : SessionState) : SessionState × Option String × Bool :=
  if s.count ≠ 0 then (s, some clearFirstMsg, false)
  else ({ s with count := 1 }, none, true)

/-- The clear handler (`src/app.py` lines 240-243). -/
def handle_clear (_s : SessionState) : SessionState × Option String × Bool :=
  (⟨0, false⟩, none, true)

/-- C6: submitting while a result is already shown (`count ≠ 0`) leaves
the session state unchanged (both `count` and `disabled`), emits the
"Clear first!" message, and triggers no rerun (so no new generation runs
and the shown itinerary is not replaced). -/
theorem submit_nonidle_rejected (s : SessionState) (h : s.count ≠ 0) :
    handle_submit s = (s, some clearFirstMsg, false) := by
  simp [handle_submit, h]

theorem submit_nonidle_rejected_witness :
    (⟨1, true⟩ : SessionState).count ≠ 0
      ∧ handle_submit ⟨1, true⟩ = (⟨1, true⟩, some clearFirstMsg, false) :=
  ⟨by decide, submit_nonidle_rejected ⟨1, true⟩ (by decide)⟩

/-- C5: the cache key is the four request parameters joined with the
separator `"_"`, the addressed file is that key plus the `.csv` suffix,
and two identical request tuples always address the same entry. -/
theorem cacheKey_deterministic_join :
    (∀ country first_city last_city num_days,
      cacheKey country first_city last_city num_days
        = String.intercalate "_"
            [country, first_city, last_city, toString num_days])
    ∧ (∀ country first_city last_city num_days,
        cacheFileName country first_city last_city num_days
          = cacheKey country first_city last_city num_days ++ ".csv")
    ∧ ∀ a b : String × String × String × ℕ, a = b →
        cacheFileName a.1 a.2.1 a.2.2.1 a.2.2.2
          = cacheFileName b.1 b.2.1 b.2.2.1 b.2.2.2 := by
  refine ⟨fun country first_city last_city num_days => ?_,
    fun _ _ _ _ => rfl, fun a b hab => by rw [hab]⟩
  simp [cacheKey, String.intercalate, String.intercalate.go, String.append_assoc]

theorem cacheKey_deterministic_join_witness :
    (("Portugal", "Lisbon", "Porto", 5) : String × String × String × ℕ)
        = ("Portugal", "Lisbon", "Porto", 5)
      ∧ cacheFileName "Portugal" "Lisbon" "Porto" 5
        = cacheFileName "Portugal" "Lisbon" "Porto" 5 :=
  ⟨rfl, cacheKey_deterministic_join.2.2
    ("Portugal", "Lisbon", "Porto", 5) ("Portugal", "Lisbon", "Porto", 5) rfl⟩

theorem plot_locations_marker_count_witness :
    ([lisbon, porto] : List Location) ≠ []
      ∧ ∃ markers, plot_locations [lisbon, porto] = some markers
          ∧ markers.length =
              (if ([lisbon, porto] : List Location).head (by simp)
                  = ([lisbon, porto] : List Location).getLast (by simp)
               then ([lisbon, porto] : List Location).length - 1
               else ([lisbon, porto] : List Location).length)
          ∧ ∀ i (hi : i < markers.length),
              ∃ hil : i < ([lisbon, porto] : List Location).length,
                markers.get ⟨i, hi⟩ =
                  ⟨(([lisbon, porto] : List Location).get ⟨i, hil⟩).coordinates,
                   (([lisbon, porto] : List Location).get ⟨i, hil⟩).name,
                   i + 1⟩ :=
  ⟨by simp, plot_locations_marker_count [lisbon, porto] (by simp)⟩

theorem plot_locations_nonempty_requirement_witness :
    ([porto] : List Location) ≠ [] ∧ (plot_locations [porto]).isSome :=
  ⟨by simp, plot_locations_nonempty_requirement.2 [porto] (by simp)⟩

/-- The country reference table lookup performed by `get_coordinates`
(`src/app.py` line 115):
`COUNTRIES.loc[COUNTRIES['country']==country]['code'].item()`.
`.item()` succeeds exactly when the filtered frame has a single row. -/
def lookupCountryCode (countries : List (String × String)) (country : String) :
    Option String :=
  match countries.filter (fun row => row.1 = country) with
  | [row] => some row.2
  | _ => none

/-- `get_coordinates` (`src/app.py` lines 102-134).  `countries` is the
reference country table (name, ISO code); `cities` is the reference city
table (city, owning country), a module global the function never reads;
`geocode` is the external geocoding call (code, city) → coordinates,
which may raise.  A failed table lookup raises
`RuntimeError("Invalid country name!")` before the HTTP connection is
opened. -/
def get_coordinates (countries : List (String × String))
    (cities : List (String × String))
    (geocode : String → String → Except String Coord)
    (country city : String) : Except String Coord :=
  match lookupCountryCode countries country with
  | none => .error "Invalid country name!"
  | some code => geocode code city

theorem lookupCountryCode_not_mem (countries : List (String × String))
    (country : String) (h : country ∉ countries.map Prod.fst) :
    lookupCountryCode countries country = none := by
  have hfil : countries.filter (fun row => row.1 = country) = [] := by
    rw [List.filter_eq_nil_iff]
    intro row hrow hcon
    exact h (by
      simp only [List.mem_map]
      exact ⟨row, hrow, by simpa using hcon⟩)
  rw [lookupCountryCode, hfil]

/-- C7: for a country absent from the reference country table,
`get_coordinates` fails with the `"Invalid country name!"` error whatever
the geocoding service would do (no geocoding call is made: the result is
independent of the `geocode` oracle); and for every country the city
argument is never validated against the reference city table (the result
is independent of the city table). -/
theorem get_coordinates_invalid_country (countries : List (String × String))
    (country city : String) (h : country ∉ countries.map Prod.fst) :
    (∀ cities geocode,
        get_coordinates countries cities geocode country city
          = .error "Invalid country name!")
      ∧ ∀ cities1 cities2 geocode,
          get_coordinates countries cities1 geocode country city
            = get_coordinates countries cities2 geocode country city := by
  constructor
  · intro cities geocode
    rw [get_coordinates, lookupCountryCode_not_mem countries country h]
  · intro cities1 cities2 geocode
    rfl

theorem get_coordinates_invalid_country_witness :
    ("Narnia" ∉ ([("Portugal", "PT")] : List (String × String)).map Prod.fst)
      ∧ ((∀ cities geocode,
            get_coordinates [("Portugal", "PT")] cities geocode
              "Narnia" "Lisbon" = .error "Invalid country name!")
          ∧ ∀ cities1 cities2 geocode,
              get_coordinates [("Portugal", "PT")] cities1 geocode
                  "Narnia" "Lisbon"
                = get_coordinates [("Portugal", "PT")] cities2 geocode
                    "Narnia" "Lisbon") :=
  ⟨by simp, get_coordinates_invalid_country [("Portugal", "PT")]
    "Narnia" "Lisbon" (by simp)⟩

/-- The display state reached by the results branch. -/
inductive DisplayOutcome where
  | noItinerary
  | itineraryShown (locations : List Location)
  deriving DecidableEq

/-- The results branch of the controller (`src/app.py` lines 251-281),
for one key.  `cache` is the per-key cache (the `.csv` files on disk,
already decoded); `pipeline` is the Location list the Generator + Parser
pipeline would produce on this run.  Returns the display outcome and the
cache write performed (if any).  On a hit the pipeline is not run; on a
miss the result is written only when non-empty (`len(locations_df) > 0`),
and an empty list reaches the apologetic "no itinerary" display. -/
def results_branch (cache : String → Option (List Location))
    (pipeline : List Location) (key : String) :
    DisplayOutcome × Option (String × List Location) :=
  match cache key with
  | some cached =>
    (if cached.length = 0 then .noItinerary else .itineraryShown cached, none)
  | none =>
    let write := if pipeline.length > 0 then some (key, pipeline) else none
    (if pipeline.length = 0 then .noItinerary else .itineraryShown pipeline,
     write)

/-- C3: on a cache miss, an empty pipeline result reaches the
"no itinerary" display state and writes no cache entry, and a non-empty
pipeline result is shown and persisted to the cache under the request's
key. -/
theorem results_branch_cache_discipline
    (cache : String → Option (List Location)) (pipeline : List Location)
    (key : String) (hmiss : cache key = none) :
    results_branch cache pipeline key =
      (if pipeline = [] then DisplayOutcome.noItinerary
       else .itineraryShown pipeline,
       if pipeline = [] then none else some (key, pipeline)) := by
  rw [results_branch, hmiss]
  cases pipeline with
  | nil => simp
  | cons l ls => simp

theorem results_branch_cache_discipline_witness :
    ((fun _ : String => (none : Option (List Location))) "Portugal_Lisbon_Porto_5"
        = none)
      ∧ results_branch (fun _ => none) [lisbon, porto] "Portugal_Lisbon_Porto_5"
          = (if ([lisbon, porto] : List Location) = []
             then DisplayOutcome.noItinerary
             else .itineraryShown [lisbon, porto],
             if ([lisbon, porto] : List Location) = [] then none
             else some ("Portugal_Lisbon_Porto_5", [lisbon, porto])) :=
  ⟨rfl, results_branch_cache_discipline (fun _ => none) [lisbon, porto]
    "Portugal_Lisbon_Porto_5" rfl⟩

/-- The per-field content of the country-metadata response, as the four
`try` blocks of `show_country_info` would extract it: each field is
`none` when its extraction (`info[0][...]` chain) raises. -/
structure CountryInfoFields where
  officialName : Option String
  capital0 : Option String
  currencies : Option (List (String × String))
  flagPng : Option String

/-- One widget emitted by the Country Info Panel. -/
inductive PanelItem where
  | subheader (s : String)
  | capitalLine (s : String)
  | currenciesLine (entries : List (String × String))
  | flagImage (url : String)
  deriving DecidableEq

/-- The body of `show_country_info`'s outer `try` (`src/app.py` lines
29-65): the response (`none` = the request or `res.json()` raised), then
the four inner `try` blocks.  A missing official name re-raises
(`raise Exception("Do not print information")`, line 42), which aborts
the remaining fields; each other missing field is silently skipped. -/
def country_info_attempt (resp : Option CountryInfoFields) :
    Except String (List PanelItem) :=
  match resp with
  | none => .error "request failed"
  | some f =>
    match f.officialName with
    | none => .error "Do not print information"
    | some nm =>
      .ok ([PanelItem.subheader nm]
        ++ (match f.capital0 with
            | none => []
            | some c => [PanelItem.capitalLine c])
        ++ (match f.currencies with
            | none => []
            | some cs => [PanelItem.currenciesLine cs])
        ++ (match f.flagPng with
            | none => []
            | some u => [PanelItem.flagImage u]))

/-- `show_country_info` (`src/app.py` lines 18-68): the outer
`except: pass` turns every raised error into an empty panel. -/
def show_country_info (resp : Option CountryInfoFields) : List PanelItem :=
  match country_info_attempt resp with
  | .error _ => []
  | .ok items => items

/-- The number of required parameters of `show_country_info`
(`def show_country_info(country: str)`, line 18). -/
def show_country_info_param_count : ℕ := 1

/-- The number of arguments the top-level results branch passes at the
call `show_country_info()` (`src/app.py` line 249). -/
def top_level_panel_call_arg_count : ℕ := 0

/-- The spec's description of the panel: "each field extraction is
independently best-effort — any single field's absence ... silently
yields no display for that field (and, per one code path, for the whole
panel)".  Written from the spec's words: no exceptions, each field
contributing independently, a missing official name (or a failed
request) suppressing everything. -/
def panel_fields_spec (resp : Option CountryInfoFields) : List PanelItem :=
  match resp with
  | none => []
  | some f =>
    match f.officialName with
    | none => []
    | some nm =>
      [PanelItem.subheader nm]
        ++ (match f.capital0 with
            | none => []
            | some c => [PanelItem.capitalLine c])
        ++ (match f.currencies with
            | none => []
            | some cs => [PanelItem.currenciesLine cs])
        ++ (match f.flagPng with
            | none => []
            | some u => [PanelItem.flagImage u])

/-- C9 (evidence): the function itself never lets an error escape — for
every response, including malformed and absent fields and a failed
request, the outer handler realizes exactly the spec's per-field
best-effort panel — but the top-level call at line 249 passes zero
arguments to the one-parameter function, so displaying the panel raises
`TypeError` at the call site itself and the interaction does not
continue. -/
theorem show_country_info_suppression_but_call_arity_bug :
    (∀ resp, show_country_info resp = panel_fields_spec resp)
      ∧ top_level_panel_call_arg_count ≠ show_country_info_param_count := by
  refine ⟨fun resp => ?_, by decide⟩
  match resp with
  | none => rfl
  | some f =>
    match hof : f.officialName with
    | none => simp [show_country_info, country_info_attempt, panel_fields_spec, hof]
    | some nm => simp [show_country_info, country_info_attempt, panel_fields_spec, hof]

/-- The character for a decimal digit. -/
def digitChar (d : ℕ) : Char :=
  match d with
  | 0 => '0' | 1 => '1' | 2 => '2' | 3 => '3' | 4 => '4'
  | 5 => '5' | 6 => '6' | 7 => '7' | 8 => '8' | _ => '9'

/-- The numeric value of a decimal digit character. -/
def charDigitVal (c : Char) : ℕ := c.toNat - 48

/-- Decimal digit characters of `n`, most significant first (Python
`repr` of a non-negative integer). -/
def renderNat (n : ℕ) : List Char :=
  if n = 0 then ['0'] else ((Nat.digits 10 n).map digitChar).reverse

/-- The numeric value of a digit string, most significant first (how a
decimal parser accumulates an integer). -/
def natValOfDigits (ds : List Char) : ℕ :=
  ds.foldl (fun a c => 10 * a + charDigitVal c) 0

theorem digitChar_isDigit {d : ℕ} (h : d < 10) :
    (digitChar d).isDigit = true := by
  interval_cases d <;> decide

theorem charDigitVal_digitChar {d : ℕ} (h : d < 10) :
    charDigitVal (digitChar d) = d := by
  interval_cases d <;> decide

theorem natValOfDigits_foldl (acc : ℕ) (l : List Char) :
    l.foldl (fun a c => 10 * a + charDigitVal c) acc
      = acc * 10 ^ l.length + natValOfDigits l := by
  induction l generalizing acc with
  | nil => simp [natValOfDigits]
  | cons c cs ih =>
    show List.foldl _ (10 * acc + charDigitVal c) cs = _
    rw [ih]
    have hc : natValOfDigits (c :: cs)
        = (charDigitVal c) * 10 ^ cs.length + natValOfDigits cs := by
      show List.foldl _ (10 * 0 + charDigitVal c) cs = _
      rw [ih]; ring_nf
    rw [hc, List.length_cons]
    ring

theorem natValOfDigits_append (a b : List Char) :
    natValOfDigits (a ++ b)
      = natValOfDigits a * 10 ^ b.length + natValOfDigits b := by
  rw [natValOfDigits, List.foldl_append, natValOfDigits_foldl]
  rfl

theorem natValOfDigits_rev_map_digitChar (L : List ℕ)
    (h : ∀ d ∈ L, d < 10) :
    natValOfDigits ((L.map digitChar).reverse) = Nat.ofDigits 10 L := by
  induction L with
  | nil => simp [natValOfDigits, Nat.ofDigits_nil]
  | cons d L ih =>
    rw [List.map_cons, List.reverse_cons, natValOfDigits_append]
    rw [ih (fun x hx => h x (by simp [hx])), Nat.ofDigits_cons]
    have hd : natValOfDigits [digitChar d] = d := by
      show 10 * 0 + charDigitVal (digitChar d) = d
      rw [charDigitVal_digitChar (h d (by simp))]
      ring
    rw [hd]
    simp
    ring

theorem natValOfDigits_renderNat (n : ℕ) :
    natValOfDigits (renderNat n) = n := by
  rw [renderNat]
  by_cases hn : n = 0
  · subst hn; decide
  · rw [if_neg hn, natValOfDigits_rev_map_digitChar _
      (fun d hd => Nat.digits_lt_base (by norm_num) hd),
      Nat.ofDigits_digits]

theorem renderNat_all_digits (n : ℕ) :
    ∀ c ∈ renderNat n, c.isDigit = true := by
  intro c hc
  rw [renderNat] at hc
  by_cases hn : n = 0
  · rw [if_pos hn] at hc
    simp at hc
    subst hc; decide
  · rw [if_neg hn, List.mem_reverse, List.mem_map] at hc
    obtain ⟨d, hd, rfl⟩ := hc
    exact digitChar_isDigit (Nat.digits_lt_base (by norm_num) hd)

theorem renderNat_ne_nil (n : ℕ) : renderNat n ≠ [] := by
  rw [renderNat]
  by_cases hn : n = 0
  · rw [if_pos hn]; simp
  · rw [if_neg hn]
    simp [Nat.digits_ne_nil_iff_ne_zero.mpr hn]

theorem renderNat_length_le {n e : ℕ} (he : 1 ≤ e) (h : n < 10 ^ e) :
    (renderNat n).length ≤ e := by
  rw [renderNat]
  by_cases hn : n = 0
  · rw [if_pos hn]; simpa using he
  · rw [if_neg hn]
    simp only [List.length_reverse, List.length_map]
    rw [Nat.digits_len 10 n (by norm_num) hn]
    have := Nat.log_lt_of_lt_pow hn h
    omega

theorem takeWhile_dropWhile_append {α : Type} (p : α → Bool) {a b : List α}
    (ha : ∀ c ∈ a, p c = true)
    (hb : ∀ c, b.head? = some c → p c = false) :
    (a ++ b).takeWhile p = a ∧ (a ++ b).dropWhile p = b := by
  induction a with
  | nil =>
    simp only [List.nil_append]
    cases b with
    | nil => simp
    | cons c cs =>
      have := hb c (by simp)
      simp [List.takeWhile_cons, List.dropWhile_cons, this]
  | cons x xs ih =>
    have hx : p x = true := ha x (by simp)
    have ihr := ih (fun c hc => ha c (by simp [hc]))
    simp [List.takeWhile_cons, List.dropWhile_cons, hx, ihr.1, ihr.2]

/-- Python `repr` of the non-negative float value `n / 10 ^ e` with
`e ≥ 1`: integer-part digits, a point, exactly `e` fractional digits. -/
def renderDecNumPos (n e : ℕ) : List Char :=
  renderNat (n / 10 ^ e) ++ '.' :: List.leftpad e '0' (renderNat (n % 10 ^ e))

/-- Python `repr` of the float modelled by `x` (`repr` always prints at
least one fractional digit, e.g. `38.0`). -/
def renderDecNum (x : DecNum) : List Char :=
  (if x.m < 0 then ['-'] else [])
    ++ renderDecNumPos (x.m.natAbs * 10 ^ (max x.e 1 - x.e)) (max x.e 1)

/-- The decimal number materialized when `renderDecNum x` is re-parsed:
the same value, written with at least one fractional digit. -/
def normDN (x : DecNum) : DecNum :=
  ⟨x.m * 10 ^ (max x.e 1 - x.e), max x.e 1⟩

/-- Python `repr` of the two-float list `[lat, lon]`, which is what
pandas' `to_csv` writes into the `coordinates` column. -/
def reprCoord (c : Coord) : List Char :=
  '[' :: (renderDecNum c.1 ++ ',' :: ' ' :: renderDecNum c.2 ++ [']'])

/-- Parse a maximal digit run: value, digit count and rest; fails on an
empty run (part of modelling `json.loads` number parsing). -/
def parseNatPart (l : List Char) : Option (ℕ × ℕ × List Char) :=
  let ds := l.takeWhile Char.isDigit
  if ds = [] then none
  else some (natValOfDigits ds, ds.length, l.dropWhile Char.isDigit)

/-- Parse an unsigned JSON number: digits with an optional fractional
part (the cache never contains exponent notation). -/
def parseDecNumPos (l : List Char) : Option (DecNum × List Char) :=
  match parseNatPart l with
  | none => none
  | some (ip, _, r1) =>
    match r1 with
    | '.' :: r2 =>
      match parseNatPart r2 with
      | none => none
      | some (fp, fd, r3) => some (⟨((ip * 10 ^ fd + fp : ℕ) : ℤ), fd⟩, r3)
    | _ => some (⟨(ip : ℤ), 0⟩, r1)

/-- Parse a JSON number with optional leading minus sign. -/
def parseDecNum (l : List Char) : Option (DecNum × List Char) :=
  match l with
  | [] => none
  | c :: l1 =>
    if c = '-' then
      (parseDecNumPos l1).map (fun p => (⟨-p.1.m, p.1.e⟩, p.2))
    else parseDecNumPos (c :: l1)

/-- `json.loads` on a serialized coordinate pair `"[lat, lon]"`. -/
def parseCoordField (l : List Char) : Option Coord :=
  match l with
  | [] => none
  | c :: r1 =>
    if c = '[' then
      match parseDecNum r1 with
      | none => none
      | some (a, r2) =>
        match r2 with
        | ',' :: r3 =>
          match parseDecNum (r3.dropWhile (fun x => x = ' ')) with
          | none => none
          | some (b, r5) => if r5 = [']'] then some (a, b) else none
        | _ => none
    else none

theorem natValOfDigits_replicate_zero (k : ℕ) :
    natValOfDigits (List.replicate k '0') = 0 := by
  induction k with
  | zero => rfl
  | succ k ih =>
    rw [List.replicate_succ]
    show List.foldl _ (10 * 0 + charDigitVal '0') _ = 0
    rw [natValOfDigits_foldl]
    simpa [charDigitVal] using ih

theorem natValOfDigits_leftpad (e : ℕ) (ds : List Char) :
    natValOfDigits (List.leftpad e '0' ds) = natValOfDigits ds := by
  rw [List.leftpad, natValOfDigits_append, natValOfDigits_replicate_zero]
  ring

theorem parseNatPart_render {ds rest : List Char}
    (hne : ds ≠ []) (hds : ∀ c ∈ ds, c.isDigit = true)
    (hrest : ∀ c, rest.head? = some c → c.isDigit = false) :
    parseNatPart (ds ++ rest)
      = some (natValOfDigits ds, ds.length, rest) := by
  obtain ⟨ht, hd⟩ := takeWhile_dropWhile_append Char.isDigit hds hrest
  simp [parseNatPart, ht, hd, hne]

theorem parseDecNumPos_render {n e : ℕ} (he : 1 ≤ e) (rest : List Char)
    (hrest : ∀ c, rest.head? = some c → c.isDigit = false) :
    parseDecNumPos (renderDecNumPos n e ++ rest)
      = some (⟨(n : ℤ), e⟩, rest) := by
  have hmodlt : n % 10 ^ e < 10 ^ e := Nat.mod_lt _ (by positivity)
  have hfplen : (List.leftpad e '0' (renderNat (n % 10 ^ e))).length = e := by
    rw [List.leftpad_length]
    have := renderNat_length_le he hmodlt
    omega
  have hfpne : List.leftpad e '0' (renderNat (n % 10 ^ e)) ≠ [] := by
    intro hcon
    rw [hcon] at hfplen
    simp at hfplen
    omega
  have hfpdigits : ∀ c ∈ List.leftpad e '0' (renderNat (n % 10 ^ e)),
      c.isDigit = true := by
    intro c hc
    rw [List.leftpad, List.mem_append] at hc
    rcases hc with hc | hc
    · rw [List.eq_of_mem_replicate hc]; decide
    · exact renderNat_all_digits _ c hc
  have h1 : parseNatPart (renderNat (n / 10 ^ e)
        ++ '.' :: (List.leftpad e '0' (renderNat (n % 10 ^ e)) ++ rest))
      = some (natValOfDigits (renderNat (n / 10 ^ e)),
          (renderNat (n / 10 ^ e)).length,
          '.' :: (List.leftpad e '0' (renderNat (n % 10 ^ e)) ++ rest)) :=
    parseNatPart_render (renderNat_ne_nil _) (renderNat_all_digits _)
      (by intro c hc; simp at hc; subst hc; decide)
  have h2 : parseNatPart (List.leftpad e '0' (renderNat (n % 10 ^ e)) ++ rest)
      = some (natValOfDigits (List.leftpad e '0' (renderNat (n % 10 ^ e))),
          (List.leftpad e '0' (renderNat (n % 10 ^ e))).length, rest) :=
    parseNatPart_render hfpne hfpdigits hrest
  rw [renderDecNumPos, List.append_assoc, List.cons_append]
  simp only [parseDecNumPos, h1, h2, natValOfDigits_renderNat,
    natValOfDigits_leftpad, hfplen]
  rw [Nat.div_add_mod']

theorem renderDecNumPos_head (n e : ℕ) :
    ∃ c0 t, renderDecNumPos n e = c0 :: t ∧ c0.isDigit = true := by
  rw [renderDecNumPos]
  cases hr : renderNat (n / 10 ^ e) with
  | nil => exact absurd hr (renderNat_ne_nil _)
  | cons d ds =>
    exact ⟨d, _, rfl, renderNat_all_digits _ d (by rw [hr]; simp)⟩

theorem renderDecNum_head (x : DecNum) :
    ∃ c0 t, renderDecNum x = c0 :: t
      ∧ (c0 = '-' ∨ c0.isDigit = true) := by
  obtain ⟨c0, t, hct, hdig⟩ :=
    renderDecNumPos_head (x.m.natAbs * 10 ^ (max x.e 1 - x.e)) (max x.e 1)
  rw [renderDecNum]
  by_cases hm : x.m < 0
  · rw [if_pos hm]
    exact ⟨'-', _, rfl, Or.inl rfl⟩
  · rw [if_neg hm, List.nil_append, hct]
    exact ⟨c0, t, rfl, Or.inr hdig⟩

theorem parseDecNum_render (x : DecNum) (rest : List Char)
    (hrest : ∀ c, rest.head? = some c → c.isDigit = false) :
    parseDecNum (renderDecNum x ++ rest) = some (normDN x, rest) := by
  have hnabs : ((x.m.natAbs : ℕ) : ℤ) = |x.m| := (Int.abs_eq_natAbs x.m).symm
  by_cases hm : x.m < 0
  · rw [renderDecNum, if_pos hm, List.cons_append, List.nil_append,
      List.cons_append]
    rw [show parseDecNum ('-' ::
          (renderDecNumPos (x.m.natAbs * 10 ^ (max x.e 1 - x.e)) (max x.e 1)
            ++ rest))
        = (parseDecNumPos
            (renderDecNumPos (x.m.natAbs * 10 ^ (max x.e 1 - x.e)) (max x.e 1)
              ++ rest)).map (fun p => (⟨-p.1.m, p.1.e⟩, p.2)) from rfl]
    rw [parseDecNumPos_render (le_max_right _ _) rest hrest]
    rw [Option.map_some', normDN]
    have habs : -((x.m.natAbs * 10 ^ (max x.e 1 - x.e) : ℕ) : ℤ)
        = x.m * 10 ^ (max x.e 1 - x.e) := by
      push_cast [hnabs]
      rw [abs_of_neg hm]
      ring
    simp only [habs]
  · obtain ⟨c0, t, hct, hdig⟩ :=
      renderDecNumPos_head (x.m.natAbs * 10 ^ (max x.e 1 - x.e)) (max x.e 1)
    have hne : ¬c0 = '-' := by
      intro hcon
      rw [hcon] at hdig
      simp [Char.isDigit] at hdig
    rw [renderDecNum, if_neg hm, List.nil_append, hct, List.cons_append]
    rw [show parseDecNum (c0 :: (t ++ rest))
        = (if c0 = '-' then
            (parseDecNumPos (t ++ rest)).map
              (fun p => (⟨-p.1.m, p.1.e⟩, p.2))
          else parseDecNumPos (c0 :: (t ++ rest))) from rfl]
    rw [if_neg hne, ← List.cons_append, ← hct,
      parseDecNumPos_render (le_max_right _ _) rest hrest, normDN]
    have habs : ((x.m.natAbs * 10 ^ (max x.e 1 - x.e) : ℕ) : ℤ)
        = x.m * 10 ^ (max x.e 1 - x.e) := by
      push_cast [hnabs]
      rw [abs_of_nonneg (not_lt.mp hm)]
    simp only [habs]

theorem normDN_toRat (x : DecNum) : (normDN x).toRat = x.toRat := by
  rw [normDN, DecNum.toRat, DecNum.toRat]
  have hle : x.e ≤ max x.e 1 := le_max_left _ _
  have hsplit : max x.e 1 - x.e + x.e = max x.e 1 := by omega
  rw [← hsplit, pow_add]
  push_cast
  have h10 : ((10 : ℚ) ^ (max x.e 1 - x.e)) ≠ 0 := by positivity
  have h10e : ((10 : ℚ) ^ x.e) ≠ 0 := by positivity
  field_simp
  ring

theorem parseCoordField_reprCoord (c : Coord) :
    parseCoordField (reprCoord c) = some (normDN c.1, normDN c.2) := by
  obtain ⟨b0, bt, hbt, hb0⟩ := renderDecNum_head c.2
  have hb0sp : ¬b0 = ' ' := by
    rcases hb0 with h | h
    · subst h; decide
    · intro hcon; rw [hcon] at h; simp [Char.isDigit] at h
  have h1 : parseDecNum (renderDecNum c.1
        ++ (',' :: ' ' :: (renderDecNum c.2 ++ [']'])))
      = some (normDN c.1, ',' :: ' ' :: (renderDecNum c.2 ++ [']'])) :=
    parseDecNum_render c.1 _ (by intro ch hch; simp at hch; subst hch; decide)
  have h2 : parseDecNum (renderDecNum c.2 ++ [']'])
      = some (normDN c.2, [']']) :=
    parseDecNum_render c.2 _ (by intro ch hch; simp at hch; subst hch; decide)
  have hdrop : (' ' :: (renderDecNum c.2 ++ [']'])).dropWhile
      (fun x => x = ' ') = renderDecNum c.2 ++ [']'] := by
    rw [List.dropWhile_cons]
    rw [if_pos (by simp)]
    rw [hbt, List.cons_append, List.dropWhile_cons, if_neg (by simpa using hb0sp)]
  rw [show reprCoord c = '[' :: (renderDecNum c.1
      ++ (',' :: ' ' :: (renderDecNum c.2 ++ [']']))) from by
    rw [reprCoord]; simp]
  rw [show parseCoordField ('[' :: (renderDecNum c.1
        ++ (',' :: ' ' :: (renderDecNum c.2 ++ [']']))))
      = (match parseDecNum (renderDecNum c.1
          ++ (',' :: ' ' :: (renderDecNum c.2 ++ [']']))) with
        | none => none
        | some (a, r2) =>
          match r2 with
          | ',' :: r3 =>
            match parseDecNum (r3.dropWhile (fun x => x = ' ')) with
            | none => none
            | some (b, r5) => if r5 = [']'] then some (a, b) else none
          | _ => none) from rfl]
  rw [h1]
  simp only [hdrop, h2]
  simp

/-- pandas `to_csv` minimal quoting: a field is quoted iff it contains
the delimiter, the quote character or a line break. -/
def csvNeedsQuote (f : List Char) : Bool :=
  f.any (fun c => c = ',' || c = '"' || c = '\n' || c = '\r')

/-- Double each quote character (the escaping used inside quoted CSV
fields). -/
def escapeQuotes (f : List Char) : List Char :=
  f.foldr (fun c acc => if c = '"' then '"' :: '"' :: acc else c :: acc) []

/-- Encode one CSV field the way pandas `to_csv` writes it. -/
def csvEncodeField (f : List Char) : List Char :=
  if csvNeedsQuote f then '"' :: (escapeQuotes f ++ ['"']) else f

/-- Parse the remainder of a quoted CSV field (after the opening quote),
un-doubling embedded quotes, returning the field and what follows the
closing quote. -/
def parseQuotedRest : List Char → Option (List Char × List Char)
  | [] => none
  | [c] => if c = '"' then some ([], []) else none
  | c :: c2 :: rest =>
    if c = '"' then
      if c2 = '"' then
        (parseQuotedRest rest).map (fun p => ('"' :: p.1, p.2))
      else some ([], c2 :: rest)
    else (parseQuotedRest (c2 :: rest)).map (fun p => (c :: p.1, p.2))

/-- Parse one CSV field (quoted or bare) from the start of a line. -/
def parseCsvField (l : List Char) : Option (List Char × List Char) :=
  match l with
  | [] => some ([], [])
  | c :: rest =>
    if c = '"' then parseQuotedRest rest
    else some ((c :: rest).takeWhile (fun x => x ≠ ','),
               (c :: rest).dropWhile (fun x => x ≠ ','))

/-- Parse a two-column CSV record (how `read_csv` decodes one row of the
cache file). -/
def parseCsvRow2 (l : List Char) : Option (List Char × List Char) :=
  match parseCsvField l with
  | none => none
  | some (f1, r) =>
    match r with
    | ',' :: r2 =>
      match parseCsvField r2 with
      | none => none
      | some (f2, r3) => if r3 = [] then some (f1, f2) else none
    | _ => none

theorem parseQuotedRest_escape (f rest : List Char)
    (hrest : rest = [] ∨ rest.head? = some ',') :
    parseQuotedRest (escapeQuotes f ++ '"' :: rest) = some (f, rest) := by
  induction f with
  | nil =>
    rcases hrest with h | h
    · subst h
      simp [escapeQuotes, parseQuotedRest]
    · cases rest with
      | nil => simp at h
      | cons r rs =>
        simp at h
        subst h
        simp [escapeQuotes, parseQuotedRest]
  | cons c f ih =>
    by_cases hc : c = '"'
    · subst hc
      show parseQuotedRest ('"' :: '"' :: (escapeQuotes f ++ '"' :: rest))
          = some ('"' :: f, rest)
      rw [parseQuotedRest, if_pos rfl, if_pos rfl, ih, Option.map_some']
    · have hesc : escapeQuotes (c :: f) = c :: escapeQuotes f := by
        simp [escapeQuotes, hc]
      rw [hesc, List.cons_append]
      cases hY : escapeQuotes f ++ '"' :: rest with
      | nil => exact absurd hY (by simp)
      | cons y ys =>
        rw [hY] at ih
        rw [parseQuotedRest, if_neg hc, ih, Option.map_some']

theorem parseCsvField_encode (f rest : List Char)
    (hrest : rest = [] ∨ rest.head? = some ',') :
    parseCsvField (csvEncodeField f ++ rest) = some (f, rest) := by
  by_cases hq : csvNeedsQuote f = true
  · rw [csvEncodeField, if_pos hq, List.cons_append, List.append_assoc,
      parseCsvField, if_pos rfl]
    exact parseQuotedRest_escape f rest hrest
  · have hnc : ∀ c ∈ f, ¬(c = ',' ∨ c = '"' ∨ c = '\n' ∨ c = '\r') := by
      intro c hc hcon
      apply hq
      rw [csvNeedsQuote, List.any_eq_true]
      refine ⟨c, hc, ?_⟩
      rcases hcon with h | h | h | h <;> simp [h]
    rw [csvEncodeField, if_neg hq]
    have htd := takeWhile_dropWhile_append (fun x => x ≠ ',')
      (a := f) (b := rest)
      (by
        intro c hc
        have := hnc c hc
        simp only [decide_eq_true_eq]
        intro hcon
        exact this (Or.inl hcon))
      (by
        intro c hc
        rcases hrest with h | h
        · subst h; simp at hc
        · rw [h] at hc
          simp at hc
          subst hc
          simp)
    cases hf : f with
    | nil =>
      rcases hrest with h | h
      · subst h; rfl
      · cases rest with
        | nil => simp at h
        | cons r rs =>
          simp at h
          subst h
          simp [parseCsvField]
    | cons c cs =>
      have hcq : ¬c = '"' := by
        intro hcon
        exact hnc c (by rw [hf]; simp) (Or.inr (Or.inl hcon))
      rw [hf] at htd
      rw [List.cons_append, parseCsvField, if_neg hcq, ← List.cons_append,
        htd.1, htd.2]

/-- The header row `to_csv` writes for the two-column frame. -/
def cacheHeader : List Char := "name,coordinates".toList

/-- One CSV record of the cache file: encoded name, delimiter, encoded
serialized coordinate pair. -/
def cacheRow (loc : Location) : List Char :=
  csvEncodeField loc.name ++ ',' :: csvEncodeField (reprCoord loc.coordinates)

/-- The cache file `to_csv(index=False)` writes (`src/app.py` line 275):
header line, then one newline-terminated record per Location. -/
def writeCacheFile (locations : List Location) : List Char :=
  cacheHeader ++ '\n'
    :: locations.foldr (fun loc acc => cacheRow loc ++ '\n' :: acc) []

/-- Decode one record the way the cache-hit path does (`src/app.py`
lines 257-260): two CSV fields, the second fed to `json.loads`. -/
def parseCacheRow (l : List Char) : Option Location :=
  match parseCsvRow2 l with
  | none => none
  | some (nm, coordStr) =>
    match parseCoordField coordStr with
    | none => none
    | some coords => some ⟨nm, coords⟩

/-- Decode all records. -/
def parseCacheRows : List (List Char) → Option (List Location)
  | [] => some []
  | r :: rs =>
    match parseCacheRow r with
    | none => none
    | some loc => (parseCacheRows rs).map (fun locs => loc :: locs)

/-- `read_csv` plus per-row `json.loads` on the cache file
(`src/app.py` lines 257-260). -/
def readCacheFile (file : List Char) : Option (List Location) :=
  match splitOnChar '\n' file with
  | [] => none
  | header :: rest =>
    if header = cacheHeader then
      if rest.getLast? = some [] then parseCacheRows rest.dropLast else none
    else none

/-- What a Location becomes after the serialize / re-parse round trip:
same name, coordinates re-materialized with at least one fractional
digit (same rational value). -/
def normLoc (loc : Location) : Location :=
  ⟨loc.name, (normDN loc.coordinates.1, normDN loc.coordinates.2)⟩

theorem splitOnChar_append_sep (sep : Char) (a b : List Char)
    (ha : sep ∉ a) :
    splitOnChar sep (a ++ sep :: b) = a :: splitOnChar sep b := by
  induction a with
  | nil => simp [splitOnChar]
  | cons x xs ih =>
    have hx : ¬x = sep := fun hcon => ha (by simp [hcon])
    rw [List.cons_append, splitOnChar]
    rw [if_neg hx, ih (fun hcon => ha (by simp [hcon]))]

theorem renderDecNum_chars (x : DecNum) :
    ∀ c ∈ renderDecNum x, c.isDigit = true ∨ c = '-' ∨ c = '.' := by
  intro c hc
  rw [renderDecNum, List.mem_append] at hc
  rcases hc with hc | hc
  · by_cases hm : x.m < 0
    · rw [if_pos hm] at hc
      simp at hc
      exact Or.inr (Or.inl hc)
    · rw [if_neg hm] at hc
      simp at hc
  · rw [renderDecNumPos, List.mem_append] at hc
    rcases hc with hc | hc
    · exact Or.inl (renderNat_all_digits _ c hc)
    · rw [List.mem_cons] at hc
      rcases hc with hc | hc
      · exact Or.inr (Or.inr hc)
      · rw [List.leftpad, List.mem_append] at hc
        rcases hc with hc | hc
        · rw [List.eq_of_mem_replicate hc]
          exact Or.inl (by decide)
        · exact Or.inl (renderNat_all_digits _ c hc)

theorem reprCoord_no_specials (k : Coord) :
    '\n' ∉ reprCoord k ∧ '\r' ∉ reprCoord k ∧ '"' ∉ reprCoord k := by
  have hgen : ∀ c ∈ reprCoord k,
      c.isDigit = true ∨ c ∈ (['[', ']', ',', ' ', '-', '.'] : List Char) := by
    intro c hc
    rw [reprCoord, List.mem_cons] at hc
    rcases hc with hc | hc
    · exact Or.inr (by simp [hc])
    rw [List.mem_append] at hc
    rcases hc with hc | hc
    · rw [List.mem_append] at hc
      rcases hc with hc | hc
      · rcases renderDecNum_chars k.1 c hc with h | h | h
        · exact Or.inl h
        · exact Or.inr (by simp [h])
        · exact Or.inr (by simp [h])
      · rw [List.mem_cons] at hc
        rcases hc with hc | hc
        · exact Or.inr (by simp [hc])
        rw [List.mem_cons] at hc
        rcases hc with hc | hc
        · exact Or.inr (by simp [hc])
        rcases renderDecNum_chars k.2 c hc with h | h | h
        · exact Or.inl h
        · exact Or.inr (by simp [h])
        · exact Or.inr (by simp [h])
    · simp at hc
      exact Or.inr (by simp [hc])
  refine ⟨fun hc => ?_, fun hc => ?_, fun hc => ?_⟩ <;>
    rcases hgen _ hc with h | h <;> simp at h

theorem mem_escapeQuotes {c : Char} {f : List Char}
    (hc : c ∈ escapeQuotes f) : c ∈ f ∨ c = '"' := by
  induction f with
  | nil => simp [escapeQuotes] at hc
  | cons x xs ih =>
    rw [show escapeQuotes (x :: xs)
        = (if x = '"' then '"' :: '"' :: escapeQuotes xs
           else x :: escapeQuotes xs) from rfl] at hc
    by_cases hx : x = '"'
    · rw [if_pos hx] at hc
      simp only [List.mem_cons] at hc
      rcases hc with h | h | h
      · exact Or.inr h
      · exact Or.inr h
      · rcases ih h with h2 | h2
        · exact Or.inl (by simp [h2])
        · exact Or.inr h2
    · rw [if_neg hx] at hc
      rw [List.mem_cons] at hc
      rcases hc with h | h
      · exact Or.inl (by simp [h])
      · rcases ih h with h2 | h2
        · exact Or.inl (by simp [h2])
        · exact Or.inr h2

theorem mem_csvEncodeField {c : Char} {f : List Char}
    (hc : c ∈ csvEncodeField f) : c ∈ f ∨ c = '"' := by
  rw [csvEncodeField] at hc
  by_cases hq : csvNeedsQuote f = true
  · rw [if_pos hq] at hc
    rw [List.mem_cons] at hc
    rcases hc with h | h
    · exact Or.inr h
    · rw [List.mem_append] at h
      rcases h with h | h
      · exact mem_escapeQuotes h
      · simp at h
        exact Or.inr h
  · rw [if_neg hq] at hc
    exact Or.inl hc

theorem newline_not_mem_cacheRow (loc : Location)
    (hn : '\n' ∉ loc.name) : '\n' ∉ cacheRow loc := by
  intro hc
  rw [cacheRow, List.mem_append] at hc
  rcases hc with hc | hc
  · rcases mem_csvEncodeField hc with h | h
    · exact hn h
    · simp at h
  · rw [List.mem_cons] at hc
    rcases hc with h | h
    · simp at h
    · rcases mem_csvEncodeField h with h2 | h2
      · exact (reprCoord_no_specials loc.coordinates).1 h2
      · simp at h2

theorem parseCsvRow2_cacheRow (loc : Location) :
    parseCsvRow2 (cacheRow loc)
      = some (loc.name, reprCoord loc.coordinates) := by
  have h1 : parseCsvField (csvEncodeField loc.name
        ++ ',' :: csvEncodeField (reprCoord loc.coordinates))
      = some (loc.name, ',' :: csvEncodeField (reprCoord loc.coordinates)) :=
    parseCsvField_encode _ _ (Or.inr (by simp))
  have h2 : parseCsvField (csvEncodeField (reprCoord loc.coordinates))
      = some (reprCoord loc.coordinates, []) := by
    have := parseCsvField_encode (reprCoord loc.coordinates) [] (Or.inl rfl)
    rwa [List.append_nil] at this
  rw [cacheRow, parseCsvRow2, h1]
  simp only [h2]
  simp

theorem parseCacheRow_cacheRow (loc : Location) :
    parseCacheRow (cacheRow loc) = some (normLoc loc) := by
  rw [parseCacheRow, parseCsvRow2_cacheRow]
  simp only [parseCoordField_reprCoord]
  rfl

theorem parseCacheRows_map (locations : List Location) :
    parseCacheRows (locations.map cacheRow)
      = some (locations.map normLoc) := by
  induction locations with
  | nil => rfl
  | cons loc locs ih =>
    rw [List.map_cons, parseCacheRows, parseCacheRow_cacheRow]
    simp only [ih, Option.map_some']
    rfl

theorem readCacheFile_writeCacheFile (locations : List Location)
    (hnames : ∀ loc ∈ locations, '\n' ∉ loc.name) :
    readCacheFile (writeCacheFile locations)
      = some (locations.map normLoc) := by
  have hbody : splitOnChar '\n'
      (locations.foldr (fun loc acc => cacheRow loc ++ '\n' :: acc) [])
      = locations.map cacheRow ++ [[]] := by
    induction locations with
    | nil => rfl
    | cons loc locs ih =>
      rw [List.foldr_cons, splitOnChar_append_sep '\n' _ _
        (newline_not_mem_cacheRow loc (hnames loc (by simp)))]
      rw [ih (fun l hl => hnames l (by simp [hl]))]
      simp
  rw [writeCacheFile, readCacheFile,
    splitOnChar_append_sep '\n' _ _ (by decide), hbody]
  show (if cacheHeader = cacheHeader then
      if (List.map cacheRow locations ++ [[]]).getLast? = some [] then
        parseCacheRows (List.map cacheRow locations ++ [[]]).dropLast
      else none
    else none) = some (locations.map normLoc)
  rw [if_pos rfl, if_pos (List.getLast?_concat _), List.dropLast_concat]
  exact parseCacheRows_map locations

/-- C4: writing a non-empty itinerary's (name, coordinates) rows to the
cache file and reading the file back reconstructs the same ordered
sequence of (name, coordinates) pairs — names identical, coordinates
equal in value (exactly, at float precision) after re-parsing the
serialized coordinate field.  Names are assumed free of line-break
characters (the only inputs on which the modelled line-based CSV reader
is faithful to pandas). -/
theorem cache_round_trip (locations : List Location)
    (hne : locations ≠ [])
    (hnames : ∀ loc ∈ locations, '\n' ∉ loc.name ∧ '\r' ∉ loc.name) :
    ∃ readBack, readCacheFile (writeCacheFile locations) = some readBack
      ∧ readBack.map Location.name = locations.map Location.name
      ∧ readBack.map
          (fun l => (l.coordinates.1.toRat, l.coordinates.2.toRat))
        = locations.map
            (fun l => (l.coordinates.1.toRat, l.coordinates.2.toRat)) := by
  refine ⟨locations.map normLoc,
    readCacheFile_writeCacheFile locations
      (fun loc hloc => (hnames loc hloc).1), ?_, ?_⟩
  · rw [List.map_map]
    rfl
  · rw [List.map_map]
    apply List.map_congr_left
    intro loc _
    show ((normLoc loc).coordinates.1.toRat, (normLoc loc).coordinates.2.toRat)
      = (loc.coordinates.1.toRat, loc.coordinates.2.toRat)
    rw [show (normLoc loc).coordinates.1 = normDN loc.coordinates.1 from rfl,
      show (normLoc loc).coordinates.2 = normDN loc.coordinates.2 from rfl,
      normDN_toRat, normDN_toRat]

theorem cache_round_trip_witness :
    (([lisbon, porto] : List Location) ≠ []
        ∧ ∀ loc ∈ ([lisbon, porto] : List Location),
            '\n' ∉ loc.name ∧ '\r' ∉ loc.name)
      ∧ ∃ readBack,
          readCacheFile (writeCacheFile [lisbon, porto]) = some readBack
          ∧ readBack.map Location.name
            = ([lisbon, porto] : List Location).map Location.name
          ∧ readBack.map
              (fun l => (l.coordinates.1.toRat, l.coordinates.2.toRat))
            = ([lisbon, porto] : List Location).map
                (fun l => (l.coordinates.1.toRat, l.coordinates.2.toRat)) :=
  ⟨⟨by simp, by decide⟩, cache_round_trip [lisbon, porto] (by simp) (by decide)⟩

end App
